import Mathlib

/-!
Shallow embedding of the core text-processing logic of the booker pipeline
(src/ollama.py and src/pdf_generator.py), with theorems settling the frozen
claims about the chunker, the response filter, the retry/fallback controller,
the section parser and the table materializer.

Python strings are modelled as `List Char`.  Python's Unicode whitespace set
is modelled by its ASCII part (the characters that actually occur in the
claims and the code); machine-irrelevant side effects (logging, progress
bars, timing) are dropped; the network calls of the cleaning step are
modelled by explicit oracle parameters.
-/

namespace Booker

/-- ASCII whitespace: the characters matched by Python's regex class `\s` and
stripped by `str.strip()` (the additional Unicode whitespace characters behave
identically and are omitted from the embedding). -/
def pyIsSpace (c : Char) : Bool :=
  c == ' ' || c == '\t' || c == '\n' || c == '\x0d' || c == '\x0b' || c == '\x0c'

/-- Python `str.strip()`: drop leading and trailing whitespace. -/
def pyStrip (s : List Char) : List Char :=
  ((s.dropWhile pyIsSpace).reverse.dropWhile pyIsSpace).reverse

/-- The sentence terminators of the chunker's split pattern `(?<=[.!?])\s+`
(src/ollama.py line 78). -/
def isTerm (c : Char) : Bool := c == '.' || c == '!' || c == '?'

/-- Python `re.split(r'(?<=[.!?])\s+', text)` (src/ollama.py line 78) as a
left-to-right scanning automaton.  A split happens at every position whose
preceding character is a sentence terminator and whose character is
whitespace; the greedy `\s+` then consumes the maximal whitespace run, which
the `skipping` state models.  `cur` holds the current segment reversed; like
Python, an empty input yields the single segment `""`, and a trailing
whitespace run after a terminator yields a trailing empty segment. -/
def splitSentAux : Bool → List Char → List Char → List (List Char)
  | _, cur, [] => [cur.reverse]
  | true, cur, c :: cs =>
    if pyIsSpace c then splitSentAux true cur cs
    else splitSentAux false [c] cs
  | false, cur, c :: cs =>
    if (cur.head?.elim false isTerm) && pyIsSpace c then
      cur.reverse :: splitSentAux true [] cs
    else splitSentAux false (c :: cur) cs

/-- The sentence list `re.split(r'(?<=[.!?])\s+', text)` of chunk_text. -/
def splitSentences (text : List Char) : List (List Char) :=
  splitSentAux false [] text

/-- The accumulation loop of chunk_text (src/ollama.py lines 81-97): if
appending the sentence would exceed `maxChars` and the buffer is non-empty
(Python truthiness), the stripped buffer is emitted and the sentence starts a
new buffer; otherwise the sentence is appended with a single joining space
(or starts the buffer when it is empty).  A final non-empty buffer is emitted
stripped. -/
def chunkAux (maxChars : Nat) : List Char → List (List Char) → List (List Char)
  | cur, [] => if cur = [] then [] else [pyStrip cur]
  | cur, s :: ss =>
    if cur.length + s.length > maxChars ∧ cur ≠ [] then
      pyStrip cur :: chunkAux maxChars s ss
    else if cur = [] then chunkAux maxChars s ss
    else chunkAux maxChars (cur ++ ' ' :: s) ss

/-- chunk_text (src/ollama.py lines 76-99): split into sentences, then
accumulate them into bounded chunks.  The generator's yields are modelled as
the returned list, in order.  The source's default for `maxChars` is 600. -/
def chunk_text (text : List Char) (maxChars : Nat) : List (List Char) :=
  chunkAux maxChars [] (splitSentences text)

example : splitSentences ("ab. cd".data) = [("ab.".data), ("cd".data)] := by decide
example : chunk_text ("ab. cd".data) 5 = [("ab. cd".data)] := by decide
example : chunk_text ("a.\tb".data) 600 = [("a. b".data)] := by decide
example : chunk_text [] 600 = [] := by decide
example : chunk_text (" ".data) 600 = [[]] := by decide
example : chunk_text ("Hi there. Bye now.".data) 10 =
    [("Hi there.".data), ("Bye now.".data)] := by decide

/-- Python `s.split(sep)` for a one-character separator, as a scanning
automaton (`cur` is the reversed current piece).  Like Python, this always
returns at least one piece: `"".split(sep) == [""]`. -/
def pySplitAux (sep : Char) : List Char → List Char → List (List Char)
  | cur, [] => [cur.reverse]
  | cur, c :: cs =>
    if c = sep then cur.reverse :: pySplitAux sep [] cs
    else pySplitAux sep (c :: cur) cs

/-- Python `s.split(sep)` for a one-character separator. -/
def pySplit (sep : Char) (s : List Char) : List (List Char) :=
  pySplitAux sep [] s

/-- Python `s.split('\n')`, used by the response filter (src/ollama.py line
234), the section parser (src/pdf_generator.py line 65) and the table
materializer (line 147). -/
def splitLines (s : List Char) : List (List Char) :=
  pySplit '\n' s

/-- Python `sep.join(pieces)`. -/
def joinSep (sep : List Char) : List (List Char) → List Char
  | [] => []
  | [l] => l
  | l :: ls => l ++ sep ++ joinSep sep ls

/-- ASCII apostrophe, written by code point to keep it out of the source
text of string literals. -/
def apos : Char := Char.ofNat 39

/-- The deny-list `skip_patterns` of the response filter
(src/ollama.py lines 239-242). -/
def skipPatterns : List (List Char) :=
  [("here is".data), ("here".data) ++ [apos, 's'], ("the text".data),
   ("corrected".data), ("fixed".data), ("output:".data), ("result:".data),
   ("summary".data), ("main points".data), ("appears to be".data)]

/-- Python `pat in s`: substring containment. -/
def containsSub (pat : List Char) : List Char → Bool
  | [] => pat.isPrefixOf []
  | c :: cs => pat.isPrefixOf (c :: cs) || containsSub pat cs

/-- A line is denied when its lowercase form contains one of the deny-list
patterns (src/ollama.py line 244).  Python `str.lower()` is modelled by its
ASCII part, `Char.toLower`, which covers every deny-list character. -/
def denyLine (line : List Char) : Bool :=
  skipPatterns.any (fun pat => containsSub pat (line.map Char.toLower))

/-- A (stripped, non-denied) line is kept when it is non-empty and does not
start with a markdown marker `*` or `#` (src/ollama.py line 246). -/
def keepLine (line : List Char) : Bool :=
  !line.isEmpty && !(line.head? == some '*') && !(line.head? == some '#')

/-- The surviving lines of the response filter (src/ollama.py lines 234-248):
split into lines, strip each, drop denied lines, keep non-empty lines not
starting with `*` or `#`. -/
def filteredLines (raw : List Char) : List (List Char) :=
  ((splitLines raw).map pyStrip).filter (fun l => !denyLine l && keepLine l)

/-- The response filter (src/ollama.py lines 234-249): the surviving lines
rejoined with newline separators into `cleaned_text`. -/
def filterResponse (raw : List Char) : List Char :=
  joinSep ['\n'] (filteredLines raw)

example : filterResponse ("Here is the fixed text:\nGood line.\n* bullet\n\nAnother".data)
    = ("Good line.\nAnother".data) := by decide

/-- The length-ratio sanity check (src/ollama.py lines 254-260):
`length_ratio = len(cleaned)/len(chunk) if len(chunk) > 0 else 0`; when the
ratio is below 0.5 the original chunk is appended, otherwise the cleaned
text.  For natural lengths in the exactly-representable float range,
`len(cleaned)/len(chunk) < 0.5` is equivalent to
`2*len(cleaned) < len(chunk)`. -/
def gateResult (chunk cleaned : List Char) : List Char :=
  if chunk.length = 0 then chunk
  else if 2 * cleaned.length < chunk.length then chunk
  else cleaned

/-- The per-chunk attempt loop (src/ollama.py lines 215-272).  Each list
entry is the outcome of one attempt: `none` when the request raised a
transport error, `some resp` when it returned response text `resp`.  The
first successful attempt strips the response, filters it, applies the
length-ratio gate, and breaks; if every attempt fails, the original chunk
is used. -/
def processAttempts (chunk : List Char) : List (Option (List Char)) → List Char
  | [] => chunk
  | none :: rest => processAttempts chunk rest
  | some resp :: _ => gateResult chunk (filterResponse (pyStrip resp))

/-- The chunk loop of clean_text_with_ollama (src/ollama.py lines 178-274):
chunks are processed strictly in order, each with up to 3 attempts whose
outcomes are given by the oracle `respond` (chunk index, attempt number). -/
def processChunks (respond : Nat → Nat → Option (List Char)) :
    Nat → List (List Char) → List (List Char)
  | _, [] => []
  | i, c :: cs =>
    processAttempts c [respond i 0, respond i 1, respond i 2] ::
      processChunks respond (i + 1) cs

/-- The preferred model name `MODEL` (src/ollama.py line 41). -/
def MODEL : List Char := "phi3:3.8b".data

/-- clean_text_with_ollama (src/ollama.py lines 155-287).  `workingModel` is
the result of the pre-flight check_ollama_connection (an I/O action modelled
as a parameter: `none` when Ollama is unreachable or no model is available);
Python's falsiness test `if not working_model` also treats an empty model
name as failure.  On failure the OCR text is returned unmodified; otherwise
the text is chunked with the default maximum of 600, each chunk is processed,
and the results are joined with a double newline. -/
def clean_text_with_ollama (workingModel : Option (List Char))
    (respond : Nat → Nat → Option (List Char)) (ocrText : List Char) : List Char :=
  match workingModel with
  | none => ocrText
  | some m =>
    if m.isEmpty then ocrText
    else joinSep ['\n', '\n'] (processChunks respond 0 (chunk_text ocrText 600))

example : clean_text_with_ollama none (fun _ _ => none) ("x y z".data) = ("x y z".data) := rfl
example : clean_text_with_ollama (some MODEL) (fun _ _ => none) ("One. Two.".data)
    = ("One. Two.".data) := by decide
example : clean_text_with_ollama (some MODEL) (fun _ _ => some ("Cleaned text body here.".data))
    ("Dirty text body here!".data) = ("Cleaned text body here.".data) := by decide

/-- A parsed content section (src/pdf_generator.py lines 60-142): the dicts
built by parse_content_sections, with `type` one of `"text"`, `"table"`,
`"ocr"`, the accumulated `content`, the optional `page` string and (for table
sections) the optional `tableNum` string. -/
structure PSection where
  type : List Char
  content : List Char
  page : Option (List Char)
  tableNum : Option (List Char)
deriving DecidableEq

/-- Python `re.match` of the section-tag patterns of parse_content_sections
(src/pdf_generator.py lines 71, 90, 97, 112, 127).  Every one of those
patterns begins with `$`, which in Python is the end-of-string anchor, not a
literal: a zero-width assertion that holds at position 0 only when the string
is empty or is the single character `"\n"`.  Each pattern continues with a
literal character (`T` for `$TABLE`/`$TEXT`, `/` for the closers, `O` for
`$OCR`), which must then also match at position 0.  This necessary condition
of a match is captured here; it is never satisfiable for those literals
(lemma `reMatchDollarLit_false`), so the tag branches are dead code. -/
def reMatchDollarLit (c : Char) (line : List Char) : Bool :=
  decide ((line = [] ∨ line = ['\n']) ∧ line.head? = some c)

/-- Python `re.search(r'$TABLE (\d+).*?Page (\d+).*?$', line)`
(src/pdf_generator.py line 77).  A search match could only start at a
position where the leading `$` anchor holds and a character remains for the
following literal, i.e. at the last position when that character is `'\n'`,
and the literal `T` would then have to equal `'\n'`.  The search therefore
never succeeds, and the group extraction in the table branch always falls
back to `"Unknown"`. -/
def reSearchDollarLit (c : Char) (line : List Char) : Bool :=
  decide (line.getLast? = some '\n' ∧ line.getLast? = some c)

/-- The maximal digit run at the head of a list, Python's greedy `\d+`
(ASCII digits model Python's Unicode digit class). -/
def digitRun (l : List Char) : List Char := l.takeWhile (fun c => c.isDigit)

/-- Python `re.search(r'Page (\d+)', line)` returning group 1
(src/pdf_generator.py lines 101, 116): the digits after the leftmost
occurrence of `"Page "` that is followed by at least one digit. -/
def searchPageNum : List Char → Option (List Char)
  | [] => none
  | c :: cs =>
    if ("Page ".data).isPrefixOf (c :: cs) then
      if (digitRun ((c :: cs).drop 5)).isEmpty then searchPageNum cs
      else some (digitRun ((c :: cs).drop 5))
    else searchPageNum cs

/-- The literal fallback marker `"Unknown"` of parse_content_sections. -/
def unknownS : List Char := "Unknown".data

/-- The starting accumulator of parse_content_sections
(src/pdf_generator.py line 63): `{'type': 'text', 'content': '', 'page': None}`. -/
def initialSection : PSection := PSection.mk ("text".data) [] none none

/-- The line loop of parse_content_sections (src/pdf_generator.py
lines 67-142).  Each line is stripped; the five `elif` regex branches are
embedded as in the source (their guards are provably always false, see
`reMatchDollarLit_false`, so every non-empty line is accumulated into the
current section's content); a final section with non-whitespace content is
flushed at the end.  In the unreachable table branch the group values behind
the never-succeeding search are immaterial. -/
def parseLoop : PSection → List (List Char) → List PSection
  | cur, [] => if (pyStrip cur.content).isEmpty then [] else [cur]
  | cur, rawLine :: rest =>
    if reMatchDollarLit 'T' (pyStrip rawLine) then
      (if (pyStrip cur.content).isEmpty then [] else [cur]) ++
        parseLoop (PSection.mk ("table".data) []
          (some (if reSearchDollarLit 'T' (pyStrip rawLine) then [] else unknownS))
          (some (if reSearchDollarLit 'T' (pyStrip rawLine) then [] else unknownS))) rest
    else if reMatchDollarLit '/' (pyStrip rawLine) then
      (if cur.type == ("table".data) then cur :: parseLoop initialSection rest
       else parseLoop cur rest)
    else if reMatchDollarLit 'T' (pyStrip rawLine) then
      (if (pyStrip cur.content).isEmpty then [] else [cur]) ++
        parseLoop (PSection.mk ("text".data) []
          (some ((searchPageNum (pyStrip rawLine)).getD unknownS)) none) rest
    else if reMatchDollarLit 'O' (pyStrip rawLine) then
      (if (pyStrip cur.content).isEmpty then [] else [cur]) ++
        parseLoop (PSection.mk ("ocr".data) []
          (some ((searchPageNum (pyStrip rawLine)).getD unknownS)) none) rest
    else if reMatchDollarLit '/' (pyStrip rawLine) then
      (if (pyStrip cur.content).isEmpty then parseLoop cur rest
       else cur :: parseLoop initialSection rest)
    else
      if (pyStrip rawLine).isEmpty then parseLoop cur rest
      else parseLoop (PSection.mk cur.type
        (cur.content ++ pyStrip rawLine ++ ['\n']) cur.page cur.tableNum) rest

/-- parse_content_sections (src/pdf_generator.py lines 60-142). -/
def parse_content_sections (text : List Char) : List PSection :=
  parseLoop initialSection (splitLines text)

example : parse_content_sections ("hi".data)
    = [PSection.mk ("text".data) ("hi\n".data) none none] := by decide
example : parse_content_sections ("  \n \n".data) = [] := by decide

/-- A character of the markdown separator class `[\|\-\+\s]`
(src/pdf_generator.py line 152). -/
def isSepChar (c : Char) : Bool := c == '|' || c == '-' || c == '+' || pyIsSpace c

/-- Python `re.match(r'^[\|\-\+\s]+$', line)`: the whole line is a non-empty
run of separator-class characters (the lines tested contain no newline, so
the `$` adds nothing further). -/
def isSeparatorLine (line : List Char) : Bool :=
  !line.isEmpty && line.all isSepChar

/-- The edge-cell trimming of create_table_from_markdown (src/pdf_generator.py
lines 163-167): drop a leading empty cell, then a trailing empty cell, each
produced by an outer pipe. -/
def trimEdgeCells (cells : List (List Char)) : List (List Char) :=
  let cells1 := match cells with
    | [] :: rest => rest
    | cs => cs
  match cells1.getLast? with
  | some [] => cells1.dropLast
  | _ => cells1

/-- create_table_from_markdown (src/pdf_generator.py lines 145-198), up to
the rows-of-cells data `table_data` that the styled reportlab Table is built
from: `none` models the source's `return None`, `some rows` models the
returned Table carrying `rows`. -/
def create_table_from_markdown (tableContent : List Char) :
    Option (List (List (List Char))) :=
  let lines := ((splitLines tableContent).map pyStrip).filter (fun l => !l.isEmpty)
  let dataLines := lines.filter (fun l => !isSeparatorLine l)
  if dataLines.isEmpty then none
  else
    let tableData :=
      (dataLines.map (fun line => trimEdgeCells ((pySplit '|' line).map pyStrip))).filter
        (fun r => !r.isEmpty)
    if tableData.isEmpty then none else some tableData

example : create_table_from_markdown ("no pipes here".data)
    = some [[("no pipes here".data)]] := by decide
example : create_table_from_markdown ("|---|\n| + |".data) = none := by decide

/-! ## General list lemmas -/

theorem mem_dropWhile {p : Char → Bool} : ∀ {l : List Char} {a : Char},
    a ∈ l.dropWhile p → a ∈ l := by
  intro l
  induction l with
  | nil => intro a h; simp at h
  | cons c cs ih =>
    intro a h
    rw [List.dropWhile_cons] at h
    by_cases hc : p c
    · rw [if_pos hc] at h
      exact List.mem_cons_of_mem c (ih h)
    · rw [if_neg hc] at h
      exact h

theorem dropWhile_idem {p : Char → Bool} : ∀ l : List Char,
    (l.dropWhile p).dropWhile p = l.dropWhile p := by
  intro l
  induction l with
  | nil => rfl
  | cons c cs ih =>
    rw [List.dropWhile_cons]
    by_cases hc : p c
    · rw [if_pos hc]; exact ih
    · rw [if_neg hc, List.dropWhile_cons, if_neg hc]

theorem dropWhile_head_not {p : Char → Bool} : ∀ {l : List Char} {c : Char} {t : List Char},
    l.dropWhile p = c :: t → p c = false := by
  intro l
  induction l with
  | nil => intro c t h; simp at h
  | cons a as ih =>
    intro c t h
    rw [List.dropWhile_cons] at h
    by_cases ha : p a
    · rw [if_pos ha] at h; exact ih h
    · rw [if_neg ha] at h
      cases h
      exact Bool.eq_false_iff.mpr ha

theorem exists_prefix_dropWhile {p : Char → Bool} : ∀ l : List Char,
    ∃ t, t ++ l.dropWhile p = l := by
  intro l
  induction l with
  | nil => exact ⟨[], rfl⟩
  | cons c cs ih =>
    rw [List.dropWhile_cons]
    by_cases hc : p c
    · obtain ⟨t, ht⟩ := ih
      exact ⟨c :: t, by rw [if_pos hc]; simpa using ht⟩
    · exact ⟨[], by rw [if_neg hc]; rfl⟩

theorem dropWhile_length_le {p : Char → Bool} : ∀ l : List Char,
    (l.dropWhile p).length ≤ l.length := by
  intro l
  induction l with
  | nil => exact Nat.le_refl _
  | cons c cs ih =>
    rw [List.dropWhile_cons]
    by_cases hc : p c
    · rw [if_pos hc]; exact Nat.le_succ_of_le ih
    · rw [if_neg hc]

theorem dropWhile_eq_nil_of_all {p : Char → Bool} : ∀ {l : List Char},
    (∀ c ∈ l, p c = true) → l.dropWhile p = [] := by
  intro l
  induction l with
  | nil => intro _; rfl
  | cons c cs ih =>
    intro h
    rw [List.dropWhile_cons, if_pos (h c (List.mem_cons_self c cs)),
      ih (fun a ha => h a (List.mem_cons_of_mem c ha))]

theorem map_fixed {α : Type} {f : α → α} : ∀ L : List α,
    (∀ a ∈ L, f a = a) → L.map f = L := by
  intro L
  induction L with
  | nil => intro _; rfl
  | cons a as ih =>
    intro h
    rw [List.map_cons, h a (List.mem_cons_self a as),
      ih (fun b hb => h b (List.mem_cons_of_mem a hb))]

theorem filter_all {α : Type} {p : α → Bool} : ∀ L : List α,
    (∀ a ∈ L, p a = true) → L.filter p = L := by
  intro L
  induction L with
  | nil => intro _; rfl
  | cons a as ih =>
    intro h
    rw [List.filter_cons, if_pos (h a (List.mem_cons_self a as)),
      ih (fun b hb => h b (List.mem_cons_of_mem a hb))]

/-! ## Lemmas about pyStrip -/

theorem mem_pyStrip {a : Char} {l : List Char} (h : a ∈ pyStrip l) : a ∈ l := by
  unfold pyStrip at h
  rw [List.mem_reverse] at h
  replace h := mem_dropWhile h
  rw [List.mem_reverse] at h
  exact mem_dropWhile h

theorem pyStrip_length_le (l : List Char) : (pyStrip l).length ≤ l.length := by
  unfold pyStrip
  rw [List.length_reverse]
  calc ((l.dropWhile pyIsSpace).reverse.dropWhile pyIsSpace).length
      ≤ (l.dropWhile pyIsSpace).reverse.length := dropWhile_length_le _
    _ = (l.dropWhile pyIsSpace).length := List.length_reverse _
    _ ≤ l.length := dropWhile_length_le _

theorem pyStrip_all_space {l : List Char} (h : ∀ c ∈ l, pyIsSpace c = true) :
    pyStrip l = [] := by
  unfold pyStrip
  rw [dropWhile_eq_nil_of_all h]
  rfl

theorem pyStrip_idem (l : List Char) : pyStrip (pyStrip l) = pyStrip l := by
  unfold pyStrip
  set d := l.dropWhile pyIsSpace with hd
  set r := (d.reverse.dropWhile pyIsSpace).reverse with hr
  have h1 : r.dropWhile pyIsSpace = r := by
    cases hrc : r with
    | nil => rfl
    | cons c t =>
      obtain ⟨t0, ht0⟩ := exists_prefix_dropWhile (p := pyIsSpace) d.reverse
      have hrd : r ++ t0.reverse = d := by
        have := congrArg List.reverse ht0
        rw [List.reverse_append, List.reverse_reverse] at this
        exact this
      have hdc : d = c :: (t ++ t0.reverse) := by
        rw [← hrd, hrc]; rfl
      have hdl : l.dropWhile pyIsSpace = c :: (t ++ t0.reverse) := by
        rw [← hd]; exact hdc
      have hc : pyIsSpace c = false := dropWhile_head_not hdl
      rw [List.dropWhile_cons, if_neg (by simp [hc])]
  have h2 : r.reverse.dropWhile pyIsSpace = r.reverse := by
    rw [hr, List.reverse_reverse]
    exact dropWhile_idem _
  rw [h1, h2, List.reverse_reverse]

/-! ## Lemmas about pySplit and joinSep -/

theorem pySplitAux_no_sep {sep : Char} : ∀ (s cur : List Char),
    sep ∉ cur → ∀ l ∈ pySplitAux sep cur s, sep ∉ l := by
  intro s
  induction s with
  | nil =>
    intro cur hcur l hl
    simp only [pySplitAux, List.mem_singleton] at hl
    subst hl
    rw [List.mem_reverse]
    exact hcur
  | cons c cs ih =>
    intro cur hcur l hl
    simp only [pySplitAux] at hl
    by_cases hc : c = sep
    · rw [if_pos hc] at hl
      rcases List.mem_cons.mp hl with h | h
      · subst h; rw [List.mem_reverse]; exact hcur
      · exact ih [] (List.not_mem_nil sep) l h
    · rw [if_neg hc] at hl
      refine ih (c :: cur) ?_ l hl
      intro hm
      rcases List.mem_cons.mp hm with h | h
      · exact hc h.symm
      · exact hcur h

theorem pySplitAux_no_sep_eq {sep : Char} : ∀ (s cur : List Char), sep ∉ s →
    pySplitAux sep cur s = [cur.reverse ++ s] := by
  intro s
  induction s with
  | nil => intro cur _; simp [pySplitAux]
  | cons c cs ih =>
    intro cur hs
    have hc : ¬c = sep := fun h => hs (h ▸ List.mem_cons_self c cs)
    simp only [pySplitAux, if_neg hc]
    rw [ih (c :: cur) (fun h => hs (List.mem_cons_of_mem c h))]
    simp

theorem pySplitAux_append_sep {sep : Char} : ∀ (k t cur : List Char), sep ∉ k →
    pySplitAux sep cur (k ++ sep :: t) = (cur.reverse ++ k) :: pySplitAux sep [] t := by
  intro k
  induction k with
  | nil =>
    intro t cur _
    simp [pySplitAux]
  | cons a k2 ih =>
    intro t cur hk
    have ha : ¬a = sep := fun h => hk (h ▸ List.mem_cons_self a k2)
    simp only [List.cons_append, pySplitAux, if_neg ha, List.append_eq]
    rw [ih t (a :: cur) (fun h => hk (List.mem_cons_of_mem a h))]
    simp

theorem splitLines_no_newline {s : List Char} : ∀ l ∈ splitLines s, '\n' ∉ l :=
  pySplitAux_no_sep s [] (List.not_mem_nil _)

theorem splitLines_joinSep : ∀ K : List (List Char), K ≠ [] →
    (∀ l ∈ K, '\n' ∉ l) → splitLines (joinSep ['\n'] K) = K := by
  intro K
  induction K with
  | nil => intro h _; exact absurd rfl h
  | cons k K2 ih =>
    intro _ hK
    cases K2 with
    | nil =>
      show splitLines (joinSep ['\n'] [k]) = [k]
      have : joinSep ['\n'] [k] = k := rfl
      rw [this]
      unfold splitLines pySplit
      rw [pySplitAux_no_sep_eq k [] (hK k (List.mem_cons_self k []))]
      rfl
    | cons k2 K3 =>
      have hjoin : joinSep ['\n'] (k :: k2 :: K3) = k ++ '\n' :: joinSep ['\n'] (k2 :: K3) := by
        simp [joinSep]
      rw [hjoin]
      unfold splitLines pySplit
      rw [pySplitAux_append_sep k _ [] (hK k (List.mem_cons_self k _))]
      have := ih (by simp) (fun l hl => hK l (List.mem_cons_of_mem k hl))
      unfold splitLines pySplit at this
      rw [this]
      rfl

/-! ## Idempotence of the response filter -/

theorem filteredLines_spec (raw : List Char) : ∀ l ∈ filteredLines raw,
    pyStrip l = l ∧ '\n' ∉ l ∧ (!denyLine l && keepLine l) = true := by
  intro l hl
  unfold filteredLines at hl
  obtain ⟨hmem, hp⟩ := List.mem_filter.mp hl
  obtain ⟨r, hr, hrl⟩ := List.mem_map.mp hmem
  subst hrl
  refine ⟨pyStrip_idem r, ?_, hp⟩
  intro hc
  exact splitLines_no_newline r hr (mem_pyStrip hc)

/-- C8: the Response Filter is idempotent: for every raw model output string,
applying the filter (strip lines, drop deny-listed lines, drop lines starting
with `*` or `#`, drop empty lines, rejoin with newlines) twice yields the
same result as applying it once. -/
theorem response_filter_idempotent (raw : List Char) :
    filterResponse (filterResponse raw) = filterResponse raw := by
  have hspec := filteredLines_spec raw
  unfold filterResponse
  rcases hK : filteredLines raw with _ | ⟨k, K⟩
  · show joinSep ['\n'] (filteredLines (joinSep ['\n'] [])) = joinSep ['\n'] []
    rfl
  · rw [hK] at hspec
    have hne : (k :: K : List (List Char)) ≠ [] := by simp
    show joinSep ['\n'] (filteredLines (joinSep ['\n'] (k :: K))) = joinSep ['\n'] (k :: K)
    unfold filteredLines
    rw [splitLines_joinSep _ hne (fun l hl => (hspec l hl).2.1),
      map_fixed _ (fun l hl => (hspec l hl).1),
      filter_all _ (fun l hl => (hspec l hl).2.2)]

/-! ## Non-whitespace preservation by the chunker -/

/-- The subsequence of non-whitespace characters of a string. -/
def nw (l : List Char) : List Char := l.filter (fun c => !pyIsSpace c)

theorem nw_nil : nw [] = [] := rfl

theorem nw_append (l1 l2 : List Char) : nw (l1 ++ l2) = nw l1 ++ nw l2 :=
  List.filter_append _ _

theorem nw_cons_space {c : Char} (h : pyIsSpace c = true) (l : List Char) :
    nw (c :: l) = nw l := by
  unfold nw
  rw [List.filter_cons, if_neg (by simp [h])]

theorem nw_cons_nonspace {c : Char} (h : pyIsSpace c = false) (l : List Char) :
    nw (c :: l) = c :: nw l := by
  unfold nw
  rw [List.filter_cons, if_pos (by simp [h])]

theorem nw_singleton_space {c : Char} (h : pyIsSpace c = true) : nw [c] = [] := by
  rw [nw_cons_space h, nw_nil]

theorem nw_singleton_nonspace {c : Char} (h : pyIsSpace c = false) : nw [c] = [c] := by
  rw [nw_cons_nonspace h, nw_nil]

theorem nw_reverse : ∀ l : List Char, nw l.reverse = (nw l).reverse := by
  intro l
  induction l with
  | nil => rfl
  | cons c cs ih =>
    rw [List.reverse_cons, nw_append, ih]
    by_cases hc : pyIsSpace c
    · rw [nw_singleton_space hc, List.append_nil, nw_cons_space hc]
    · replace hc := Bool.eq_false_iff.mpr hc
      rw [nw_singleton_nonspace hc, nw_cons_nonspace hc, List.reverse_cons]

theorem nw_dropWhile_space : ∀ l : List Char, nw (l.dropWhile pyIsSpace) = nw l := by
  intro l
  induction l with
  | nil => rfl
  | cons c cs ih =>
    rw [List.dropWhile_cons]
    by_cases hc : pyIsSpace c
    · rw [if_pos hc, ih, nw_cons_space hc]
    · rw [if_neg hc]

theorem nw_pyStrip (l : List Char) : nw (pyStrip l) = nw l := by
  unfold pyStrip
  rw [nw_reverse, nw_dropWhile_space, nw_reverse, List.reverse_reverse, nw_dropWhile_space]

theorem nw_splitSentAux : ∀ s : List Char,
    (∀ cur, nw (List.flatten (splitSentAux false cur s)) = nw cur.reverse ++ nw s) ∧
      nw (List.flatten (splitSentAux true [] s)) = nw s := by
  intro s
  induction s with
  | nil =>
    constructor
    · intro cur
      show nw (cur.reverse ++ List.flatten []) = nw cur.reverse ++ nw []
      rw [nw_append]
      rfl
    · rfl
  | cons c cs ih =>
    obtain ⟨ih1, ih2⟩ := ih
    constructor
    · intro cur
      show nw (List.flatten (if (cur.head?.elim false isTerm) && pyIsSpace c then
          cur.reverse :: splitSentAux true [] cs
        else splitSentAux false (c :: cur) cs)) = nw cur.reverse ++ nw (c :: cs)
      by_cases hcond : ((cur.head?.elim false isTerm) && pyIsSpace c) = true
      · have hsp : pyIsSpace c = true := (Bool.and_eq_true _ _ |>.mp hcond).2
        rw [if_pos hcond, List.flatten_cons, nw_append, ih2, nw_cons_space hsp]
      · rw [if_neg (by simpa using hcond), ih1 (c :: cur), List.reverse_cons, nw_append]
        by_cases hc : pyIsSpace c
        · rw [nw_singleton_space hc, List.append_nil, nw_cons_space hc]
        · replace hc := Bool.eq_false_iff.mpr hc
          rw [nw_singleton_nonspace hc, nw_cons_nonspace hc]
          simp
    · show nw (List.flatten (if pyIsSpace c then splitSentAux true [] cs
          else splitSentAux false [c] cs)) = nw (c :: cs)
      by_cases hc : pyIsSpace c
      · rw [if_pos hc, ih2, nw_cons_space hc]
      · replace hc := Bool.eq_false_iff.mpr hc
        rw [if_neg (by simp [hc]), ih1 [c], nw_cons_nonspace hc,
          show ([c] : List Char).reverse = [c] from rfl, nw_singleton_nonspace hc]
        rfl

theorem nw_chunkAux (maxChars : Nat) : ∀ (ss : List (List Char)) (cur : List Char),
    nw (List.flatten (chunkAux maxChars cur ss)) = nw cur ++ nw (List.flatten ss) := by
  intro ss
  induction ss with
  | nil =>
    intro cur
    by_cases hc : cur = []
    · subst hc
      rfl
    · show nw (List.flatten (if cur = [] then [] else [pyStrip cur]))
          = nw cur ++ nw (List.flatten [])
      rw [if_neg hc]
      show nw (pyStrip cur ++ List.flatten []) = nw cur ++ nw (List.flatten [])
      rw [nw_append, nw_pyStrip]
  | cons s ss2 ih =>
    intro cur
    show nw (List.flatten (if cur.length + s.length > maxChars ∧ cur ≠ [] then
        pyStrip cur :: chunkAux maxChars s ss2
      else if cur = [] then chunkAux maxChars s ss2
      else chunkAux maxChars (cur ++ ' ' :: s) ss2)) = nw cur ++ nw (List.flatten (s :: ss2))
    rw [List.flatten_cons, nw_append]
    by_cases h1 : cur.length + s.length > maxChars ∧ cur ≠ []
    · rw [if_pos h1, List.flatten_cons, nw_append, nw_pyStrip, ih s]
    · rw [if_neg h1]
      by_cases h2 : cur = []
      · rw [if_pos h2, ih s, h2]
        rfl
      · rw [if_neg h2, ih (cur ++ ' ' :: s), nw_append, nw_cons_space (by decide),
          List.append_assoc]

/-- C3 (amended): concatenating the texts of all chunks reproduces the input
up to whitespace: the subsequence of non-whitespace characters of the
concatenation equals that of the original text, in order, for every input
and every configured maximum. -/
theorem chunk_coverage_nonspace (text : List Char) (maxChars : Nat) :
    nw (List.flatten (chunk_text text maxChars)) = nw text := by
  unfold chunk_text
  rw [nw_chunkAux]
  have h := (nw_splitSentAux text).1 []
  unfold splitSentences
  rw [h]
  rfl

/-- C3 (counterexample to the claim as stated): for the input `"a.\tb"` the
chunker emits the single chunk `"a. b"`.  The original text contains a tab
character, but no emitted chunk does, so no convention of ignoring the
whitespace *added* for joining can reproduce the original input exactly: the
original's own whitespace (the tab) has been destroyed, not merely joined
over. -/
theorem chunk_coverage_counterexample :
    chunk_text ("a.\tb".data) 600 = [("a. b".data)] ∧
      '\t' ∈ ("a.\tb".data) ∧ '\t' ∉ ("a. b".data) := by decide

/-! ## The chunk length bound -/

theorem chunkAux_bound (maxChars : Nat) (allS : List (List Char)) :
    ∀ (ss : List (List Char)) (cur : List Char),
      (∀ s ∈ ss, s ∈ allS) →
      (cur.length ≤ maxChars + 1 ∨ cur ∈ allS) →
      ∀ ch ∈ chunkAux maxChars cur ss,
        ch.length ≤ maxChars + 1 ∨ ∃ s ∈ allS, ch = pyStrip s ∧ maxChars < s.length := by
  have emit : ∀ cur : List Char, (cur.length ≤ maxChars + 1 ∨ cur ∈ allS) →
      (pyStrip cur).length ≤ maxChars + 1 ∨
        ∃ s ∈ allS, pyStrip cur = pyStrip s ∧ maxChars < s.length := by
    intro cur h
    rcases h with h | h
    · exact Or.inl (Nat.le_trans (pyStrip_length_le cur) h)
    · by_cases hlen : maxChars < cur.length
      · exact Or.inr ⟨cur, h, rfl, hlen⟩
      · exact Or.inl (Nat.le_trans (pyStrip_length_le cur)
          (Nat.le_succ_of_le (Nat.le_of_not_lt hlen)))
  intro ss
  induction ss with
  | nil =>
    intro cur _ hcur ch hch
    show ch.length ≤ maxChars + 1 ∨ _
    by_cases hc : cur = []
    · rw [show chunkAux maxChars cur [] = if cur = [] then [] else [pyStrip cur] from rfl,
        if_pos hc] at hch
      exact absurd hch (List.not_mem_nil ch)
    · rw [show chunkAux maxChars cur [] = if cur = [] then [] else [pyStrip cur] from rfl,
        if_neg hc, List.mem_singleton] at hch
      subst hch
      exact emit cur hcur
  | cons s ss2 ih =>
    intro cur hss hcur ch hch
    have hsA : s ∈ allS := hss s (List.mem_cons_self s ss2)
    have hss2 : ∀ t ∈ ss2, t ∈ allS := fun t ht => hss t (List.mem_cons_of_mem s ht)
    rw [show chunkAux maxChars cur (s :: ss2) =
        (if cur.length + s.length > maxChars ∧ cur ≠ [] then
          pyStrip cur :: chunkAux maxChars s ss2
        else if cur = [] then chunkAux maxChars s ss2
        else chunkAux maxChars (cur ++ ' ' :: s) ss2) from rfl] at hch
    by_cases h1 : cur.length + s.length > maxChars ∧ cur ≠ []
    · rw [if_pos h1] at hch
      rcases List.mem_cons.mp hch with h | h
      · subst h
        exact emit cur hcur
      · exact ih s hss2 (Or.inr hsA) ch h
    · rw [if_neg h1] at hch
      by_cases h2 : cur = []
      · rw [if_pos h2] at hch
        exact ih s hss2 (Or.inr hsA) ch hch
      · rw [if_neg h2] at hch
        have hlen : cur.length + s.length ≤ maxChars := by
          rcases Decidable.not_and_iff_or_not.mp h1 with h | h
          · exact Nat.le_of_not_lt h
          · exact absurd h2 (by simpa using h)
        refine ih (cur ++ ' ' :: s) hss2 (Or.inl ?_) ch hch
        rw [List.length_append, List.length_cons]
        omega

/-- C2 (amended): every chunk emitted by the Chunker either has length at
most the configured maximum plus one, or is the strip of a single sentence
of the sentence split that is by itself longer than the maximum.  (The size
check `len(current_chunk) + len(sentence) > max_chars` does not count the
single joining space inserted afterwards, so a chunk built from two or more
sentences can exceed the maximum by exactly one character.) -/
theorem chunk_bound_amended (text : List Char) (maxChars : Nat) (ch : List Char)
    (h : ch ∈ chunk_text text maxChars) :
    ch.length ≤ maxChars + 1 ∨
      ∃ s ∈ splitSentences text, ch = pyStrip s ∧ maxChars < s.length :=
  chunkAux_bound maxChars (splitSentences text) (splitSentences text) []
    (fun _ hs => hs) (Or.inl (by simp)) ch h

theorem chunk_bound_amended_witness :
    ("ab. cd".data).length ≤ 5 + 1 ∨
      ∃ s ∈ splitSentences ("ab. cd".data), ("ab. cd".data) = pyStrip s ∧ 5 < s.length :=
  chunk_bound_amended ("ab. cd".data) 5 ("ab. cd".data) (by decide)

/-- C2 (counterexample to the claim as stated): with maximum 5, the input
`"ab. cd"` splits into the two sentences `"ab."` and `"cd"`, each of length
at most 5, yet the single emitted chunk `"ab. cd"` has length 6 > 5.  The
oversized chunk is not emitted from a single oversized sentence: the joining
space is what pushes it over the maximum, because the size check does not
count it. -/
theorem chunk_bound_counterexample :
    chunk_text ("ab. cd".data) 5 = [("ab. cd".data)] ∧
      ("ab. cd".data).length = 6 ∧
      splitSentences ("ab. cd".data) = [("ab.".data), ("cd".data)] ∧
      ("ab.".data).length ≤ 5 ∧ ("cd".data).length ≤ 5 := by decide

/-! ## Whitespace-only input -/

theorem isTerm_eq_false_of_space {c : Char} (h : pyIsSpace c = true) :
    isTerm c = false := by
  simp only [pyIsSpace, Bool.or_eq_true, beq_iff_eq] at h
  rcases h with ((((h | h) | h) | h) | h) | h <;> subst h <;> decide

theorem splitSentAux_all_space : ∀ s cur : List Char,
    (∀ c ∈ s, pyIsSpace c = true) → (∀ c ∈ cur, pyIsSpace c = true) →
    splitSentAux false cur s = [cur.reverse ++ s] := by
  intro s
  induction s with
  | nil =>
    intro cur _ _
    simp [splitSentAux]
  | cons c cs ih =>
    intro cur hs hcur
    have hcond : ((cur.head?.elim false isTerm) && pyIsSpace c) = false := by
      cases hcu : cur with
      | nil => rfl
      | cons d t =>
        have hd : isTerm d = false :=
          isTerm_eq_false_of_space (hcur d (hcu ▸ List.mem_cons_self d t))
        simp [hd]
    show (if (cur.head?.elim false isTerm) && pyIsSpace c then
        cur.reverse :: splitSentAux true [] cs
      else splitSentAux false (c :: cur) cs) = [cur.reverse ++ c :: cs]
    rw [if_neg (by simp [hcond])]
    rw [ih (c :: cur) (fun a ha => hs a (List.mem_cons_of_mem c ha))
      (fun a ha => by
        rcases List.mem_cons.mp ha with h | h
        · subst h; exact hs a (List.mem_cons_self a cs)
        · exact hcur a h)]
    simp

/-- C10: for every non-empty input consisting only of whitespace characters,
chunk_text yields exactly one chunk, and that chunk is the empty string:
the whole input is a single terminator-free sentence, which becomes the one
buffer and strips to empty on emission. -/
theorem whitespace_input_single_empty_chunk (s : List Char) (maxChars : Nat)
    (hne : s ≠ []) (hsp : ∀ c ∈ s, pyIsSpace c = true) :
    chunk_text s maxChars = [[]] := by
  unfold chunk_text splitSentences
  rw [splitSentAux_all_space s [] hsp (by intro c h; exact absurd h (List.not_mem_nil c))]
  rw [List.reverse_nil, List.nil_append]
  show (if ([] : List Char).length + s.length > maxChars ∧ ([] : List Char) ≠ [] then
      pyStrip [] :: chunkAux maxChars s []
    else if ([] : List Char) = [] then chunkAux maxChars s []
    else chunkAux maxChars ([] ++ ' ' :: s) []) = [[]]
  rw [if_neg (by simp), if_pos rfl]
  show (if s = [] then [] else [pyStrip s]) = [[]]
  rw [if_neg hne, pyStrip_all_space hsp]

theorem whitespace_input_single_empty_chunk_witness :
    chunk_text ("  ".data) 600 = [[]] :=
  whitespace_input_single_empty_chunk ("  ".data) 600 (by decide) (by decide)

/-! ## The retry/fallback controller -/

/-- C5: when an attempt succeeds and the filtered output is shorter than half
the chunk (the ratio gate `length_ratio < 0.5`), the original chunk text is
accepted as that chunk's contribution, and no further attempts are made for
the chunk: the result does not depend on the outcomes `rest` of the remaining
attempts.  `pre` is any run of failed attempts before the successful one. -/
theorem length_ratio_keeps_original (chunk resp : List Char)
    (pre rest : List (Option (List Char)))
    (hpre : ∀ o ∈ pre, o = none)
    (hshort : 2 * (filterResponse (pyStrip resp)).length < chunk.length) :
    processAttempts chunk (pre ++ some resp :: rest) = chunk := by
  induction pre with
  | nil =>
    show gateResult chunk (filterResponse (pyStrip resp)) = chunk
    unfold gateResult
    have h0 : ¬chunk.length = 0 := by omega
    rw [if_neg h0, if_pos hshort]
  | cons o pre2 ih =>
    have ho : o = none := hpre o (List.mem_cons_self o pre2)
    subst ho
    show processAttempts chunk (pre2 ++ some resp :: rest) = chunk
    exact ih (fun a ha => hpre a (List.mem_cons_of_mem none ha))

theorem length_ratio_keeps_original_witness :
    processAttempts ("abcdefgh".data) [none, some ("xy".data)] = ("abcdefgh".data) :=
  length_ratio_keeps_original ("abcdefgh".data) ("xy".data) [none] []
    (fun o ho => List.mem_singleton.mp ho) (by decide)

/-- C6: if every model call raises a transport error (each chunk exhausts its
3 attempts), clean_text_with_ollama returns exactly the chunks of its input,
in original order, joined with a double-newline separator: the
chunked-and-rejoined original text. -/
theorem all_attempts_fail_fallback (m : List Char)
    (respond : Nat → Nat → Option (List Char)) (ocr : List Char)
    (hm : m ≠ []) (hfail : ∀ i a, respond i a = none) :
    clean_text_with_ollama (some m) respond ocr
      = joinSep ['\n', '\n'] (chunk_text ocr 600) := by
  have hchunks : ∀ (l : List (List Char)) (i : Nat), processChunks respond i l = l := by
    intro l
    induction l with
    | nil => intro i; rfl
    | cons c cs ih =>
      intro i
      show processAttempts c [respond i 0, respond i 1, respond i 2] ::
          processChunks respond (i + 1) cs = c :: cs
      rw [hfail i 0, hfail i 1, hfail i 2, ih (i + 1)]
      rfl
  have hmE : m.isEmpty = false := by
    cases m with
    | nil => exact absurd rfl hm
    | cons a as => rfl
  show (if m.isEmpty then ocr
    else joinSep ['\n', '\n'] (processChunks respond 0 (chunk_text ocr 600)))
      = joinSep ['\n', '\n'] (chunk_text ocr 600)
  rw [hmE]
  show joinSep ['\n', '\n'] (processChunks respond 0 (chunk_text ocr 600))
      = joinSep ['\n', '\n'] (chunk_text ocr 600)
  rw [hchunks]

theorem all_attempts_fail_fallback_witness :
    clean_text_with_ollama (some MODEL) (fun _ _ => none) ("Hi there. Bye now.".data)
      = joinSep ['\n', '\n'] (chunk_text ("Hi there. Bye now.".data) 600) :=
  all_attempts_fail_fallback MODEL (fun _ _ => none) ("Hi there. Bye now.".data)
    (by decide) (fun _ _ => rfl)

/-- C7: if the pre-flight connectivity/model-availability check fails (no
usable model is found), clean_text_with_ollama returns its input string
unmodified, whatever the per-chunk attempt outcomes would have been: no chunk
is processed. -/
theorem connection_failure_passthrough (respond : Nat → Nat → Option (List Char))
    (ocr : List Char) :
    clean_text_with_ollama none respond ocr = ocr := rfl

/-! ## The section parser -/

/-- The tag-detection branches of parse_content_sections are dead code: a
pattern beginning with the anchor `$` followed by a literal other than a
newline can match no line at all. -/
theorem reMatchDollarLit_false (c : Char) (hc : c ≠ '\n') :
    ∀ line, reMatchDollarLit c line = false := by
  intro line
  unfold reMatchDollarLit
  apply decide_eq_false
  rintro ⟨h1 | h1, h2⟩
  · subst h1
    exact Option.noConfusion h2
  · subst h1
    exact hc (Option.some.inj h2).symm

theorem parseLoop_content : ∀ (lines : List (List Char)) (cur : PSection),
    ∀ sec ∈ parseLoop cur lines, pyStrip sec.content ≠ [] := by
  intro lines
  have hT := reMatchDollarLit_false 'T' (by decide)
  have hS := reMatchDollarLit_false '/' (by decide)
  have hO := reMatchDollarLit_false 'O' (by decide)
  induction lines with
  | nil =>
    intro cur sec hsec
    by_cases hE : (pyStrip cur.content).isEmpty
    · rw [show parseLoop cur [] = if (pyStrip cur.content).isEmpty then [] else [cur] from rfl,
        if_pos hE] at hsec
      exact absurd hsec (List.not_mem_nil sec)
    · rw [show parseLoop cur [] = if (pyStrip cur.content).isEmpty then [] else [cur] from rfl,
        if_neg hE, List.mem_singleton] at hsec
      subst hsec
      intro h
      exact hE (by rw [h]; rfl)
  | cons r rest ih =>
    intro cur sec hsec
    rw [show parseLoop cur (r :: rest) = (if (pyStrip r).isEmpty then parseLoop cur rest
        else parseLoop (PSection.mk cur.type
          (cur.content ++ pyStrip r ++ ['\n']) cur.page cur.tableNum) rest) from by
      show (if reMatchDollarLit 'T' (pyStrip r) then _ else _) = _
      rw [hT, hS, hO]
      simp only [Bool.false_eq_true, if_false]] at hsec
    by_cases hE : (pyStrip r).isEmpty
    · rw [if_pos hE] at hsec
      exact ih cur sec hsec
    · rw [if_neg hE] at hsec
      exact ih _ sec hsec

/-- C4: every section in the output of parse_content_sections has content
that is not entirely whitespace: a flushed section whose content strips to
empty is never present in the returned list, for every input text. -/
theorem sections_no_blank_content (text : List Char) (sec : PSection)
    (h : sec ∈ parse_content_sections text) : pyStrip sec.content ≠ [] :=
  parseLoop_content (splitLines text) initialSection sec h

theorem sections_no_blank_content_witness :
    pyStrip (PSection.mk ("text".data) ("hi\n".data) none none).content ≠ [] :=
  sections_no_blank_content ("hi".data) (PSection.mk ("text".data) ("hi\n".data) none none)
    (by decide)

/-- C1 (the code at the claim's input): the tag regexes of
parse_content_sections all begin with the Python end-of-string anchor `$`,
so no line is ever recognized as a tag.  On the input consisting of the
text-section-open tag line for page 1, the content line `Hello world` and
the section-close tag line — in the syntax the patterns' literals denote,
`$TEXT - Page 1$` and `$/TEXT$` — the parser returns one default section
whose page is `none` (not `"1"`) and whose content contains all three lines,
tag lines included (not `"Hello world"`). -/
theorem parse_sections_tag_lines_ignored :
    parse_content_sections ("$TEXT - Page 1$\nHello world\n$/TEXT$".data)
      = [PSection.mk ("text".data)
          ("$TEXT - Page 1$\nHello world\n$/TEXT$\n".data) none none] := by decide

/-! ## The table materializer -/

/-- C9: for the body `"| a | b |\n|---|---|\n| 1 | 2 |"` the Table
Materializer produces exactly two rows of cells, `["a","b"]` and
`["1","2"]`: the separator line is excluded, cells are split on the pipe and
trimmed, and the leading and trailing empty cells from the outer pipes are
dropped. -/
theorem table_markdown_two_rows :
    create_table_from_markdown ("| a | b |\n|---|---|\n| 1 | 2 |".data)
      = some [[("a".data), ("b".data)], [("1".data), ("2".data)]] := by decide

end Booker
